import Mathlib

/-!
Verification of the FluidNC motion-safety core and the LEDC PWM pin driver.

Part I embeds `src/FluidNC/src/Pins/LedcPin.cpp` (real source code):
`ledcAllocateChannel`, `ledcSetDuty`, `ledc_calc_pwm_precision`.

Part II models the limits / homing / soft-limit core declared in
`src/Grbl_Esp32/src/Limits.h`.  Only the declarations of that core are in
the repository; the bodies are modelled from the specification.
-/

namespace LedcPin

/-- Embeds `ledcAllocateChannel` from LedcPin.cpp.  The C function keeps a
static counter `nextLedcChannel`, asserts `nextLedcChannel < 8` with message
"Out of LEDC PWM channels", then increments by 2 and returns the old value.
We pass the static counter explicitly: the result is the returned channel
paired with the new counter, or the assertion message on failure. -/
def ledcAllocateChannel (nextLedcChannel : Nat) : Except String (Nat × Nat) :=
  if nextLedcChannel < 8 then
    .ok (nextLedcChannel, nextLedcChannel + 2)
  else
    .error "Out of LEDC PWM channels"

/-- Runs `n` successive calls of `ledcAllocateChannel` starting from counter
`c`; returns the list of handed-out channels and the final counter, or
`none` if some call hits the assertion. -/
def allocRun : Nat → Nat → Option (List Nat × Nat)
  | 0, c => some ([], c)
  | n + 1, c =>
    match ledcAllocateChannel c with
    | .error _ => none
    | .ok (ch, c2) =>
      match allocRun n c2 with
      | none => none
      | some (chs, cf) => some (ch :: chs, cf)

/-- One LEDC channel's registers, as touched by `ledcSetDuty`:
the duty register and the `conf0.sig_out_en` / `conf1.duty_start` bits. -/
structure LedcChannel where
  duty : Nat
  sig_out_en : Bool
  duty_start : Bool
deriving DecidableEq, Repr

/-- The LEDC register file: `channel_group[g].channel[c]`, indexed by the
pair (group, channel index). -/
def LedcRegs : Type := Nat × Nat → LedcChannel

/-- Embeds `ledcSetDuty` from LedcPin.cpp:
`g = chan >> 3`, `c = chan & 7`, `on = duty != 0`;
writes `duty << 4` (a `uint32_t` expression, hence reduced mod 2^32) to the
duty register of channel (g, c) and `on` to its `sig_out_en` and
`duty_start` bits, leaving every other channel untouched. -/
def ledcSetDuty (st : LedcRegs) (chan : Nat) (duty : Nat) : LedcRegs :=
  let g := chan >>> 3
  let c := chan &&& 7
  let isOn := duty != 0
  fun gc =>
    if gc = (g, c) then
      { duty := (duty <<< 4) % 2 ^ 32, sig_out_en := isOn, duty_start := isOn }
    else
      st gc

/-- Embeds the `for (bits = 2; bits <= 20; ++bits)` loop of
`ledc_calc_pwm_precision`: at each step, if `1 << bits > maxCount` return
`bits - 1`; when the loop runs out (`bits > 20`) return 20.  `fuel` counts
the remaining iterations (19 covers bits = 2..20). -/
def pwmLoopAux (maxCount : Nat) : Nat → Nat → Nat
  | 0, _ => 20
  | fuel + 1, bits =>
    if 2 ^ bits > maxCount then bits - 1 else pwmLoopAux maxCount fuel (bits + 1)

/-- Embeds `ledc_calc_pwm_precision` from LedcPin.cpp: a zero frequency is
replaced by 1, `maxCount = 80000000 / freq` (integer division), then the
loop searches for the first `bits` in 2..20 with `2^bits > maxCount`. -/
def ledc_calc_pwm_precision (freq : Nat) : Nat :=
  let f := if freq = 0 then 1 else freq
  let maxCount := 80000000 / f
  pwmLoopAux maxCount 19 2

end LedcPin

namespace Limits

/-- Modelled from the spec: the process-wide safety enum of section 3,
`{NORMAL, HOMING, ALARMED}`.  The implementation behind `Limits.h` is not in
the repository, so the enum comes from the data model of the spec. -/
inductive SafetyState where
  | normal
  | homing
  | alarmed
deriving DecidableEq, Repr

/-- Modelled from the spec: the events that drive the SafetyState
transitions of section 3 (homing start, successful homing completion, and
a detected violation). -/
inductive SafetyEvent where
  | homingStart
  | homingSuccess
  | violation
deriving DecidableEq, Repr

/-- Modelled from the spec: the SafetyState transition function of
section 3: NORMAL→HOMING on homing start, HOMING→NORMAL on successful
completion, NORMAL or HOMING→ALARMED on any detected violation, ALARMED
terminal; every other event leaves the state unchanged. -/
def safetyStep : SafetyState → SafetyEvent → SafetyState
  | .alarmed, _ => .alarmed
  | .normal, .homingStart => .homing
  | .normal, .violation => .alarmed
  | .normal, .homingSuccess => .normal
  | .homing, .homingSuccess => .normal
  | .homing, .violation => .alarmed
  | .homing, .homingStart => .homing

/-- The edges of the transition graph drawn in section 3 of the spec:
NORMAL→HOMING, HOMING→NORMAL, NORMAL→ALARMED, HOMING→ALARMED. -/
def allowedTransition : SafetyState → SafetyState → Bool
  | .normal, .homing => true
  | .homing, .normal => true
  | .normal, .alarmed => true
  | .homing, .alarmed => true
  | _, _ => false

/-- Modelled from the spec: the per-axis configuration (AxisConfig,
section 3) as far as the soft-limit validator and the homing controller
need it.  `maxTravel` is the configured travel length, `pullOff` the
pull-off distance, `towardMin` the homing direction (true = toward min),
`softLimits` whether soft limits are enabled for the axis,
`nLocateCycles` the number of locate cycles, and `seekMargin` the margin
added to the travel length to bound the seek move.  `numAxes` bounds the
axis indices. -/
structure Config where
  numAxes : Nat
  maxTravel : Nat → ℚ
  pullOff : Nat → ℚ
  towardMin : Nat → Bool
  softLimits : Nat → Bool
  nLocateCycles : Nat → Nat
  seekMargin : Nat → ℚ

/-- Modelled from the spec: the configured home coordinate of an axis,
derived from its homing direction and travel length (section 4.5 COMPLETE;
scenario 7 fixes the toward-min home coordinate at 0, so toward-max homes
at the travel length). -/
def homeCoord (cfg : Config) (a : Nat) : ℚ :=
  if cfg.towardMin a then 0 else cfg.maxTravel a

/-- Modelled from the spec: `limitsMinPosition` — the lower bound of the
permissible interval of section 4.4, computed from travel length, homing
direction and pull-off: the bound nearest the home switch is offset inward
by the pull-off. -/
def limitsMinPosition (cfg : Config) (a : Nat) : ℚ :=
  if cfg.towardMin a then cfg.pullOff a else 0

/-- Modelled from the spec: `limitsMaxPosition` — the upper bound of the
permissible interval of section 4.4 (offset inward by the pull-off when the
axis homes toward max). -/
def limitsMaxPosition (cfg : Config) (a : Nat) : ℚ :=
  if cfg.towardMin a then cfg.maxTravel a else cfg.maxTravel a - cfg.pullOff a

/-- Modelled from the spec: the failures of `checkTravel` (section 4.4):
`NotHomed(axis)` and `SoftLimitViolation(axis, target, bound)`. -/
inductive CheckErr where
  | notHomed (axis : Nat)
  | softLimitViolation (axis : Nat) (target : ℚ) (bound : ℚ)
deriving DecidableEq, Repr

/-- Modelled from the spec: the check `checkTravel` performs for one axis
(section 4.4): if soft limits are enabled and the axis has not completed
homing since power-up, fail `NotHomed(axis)`; otherwise fail
`SoftLimitViolation(axis, target[axis], bound)` when the target falls
outside `[minBound, maxBound]`, naming the violated bound. -/
def checkAxis (cfg : Config) (homed : Nat → Bool) (target : Nat → ℚ) (a : Nat) :
    Except CheckErr Unit :=
  if cfg.softLimits a then
    if homed a then
      if target a < limitsMinPosition cfg a then
        .error (.softLimitViolation a (target a) (limitsMinPosition cfg a))
      else if limitsMaxPosition cfg a < target a then
        .error (.softLimitViolation a (target a) (limitsMaxPosition cfg a))
      else
        .ok ()
    else
      .error (.notHomed a)
  else
    .ok ()

/-- Runs `checkAxis` over a list of axes, returning the first failure. -/
def checkAxes (cfg : Config) (homed : Nat → Bool) (target : Nat → ℚ) :
    List Nat → Except CheckErr Unit
  | [] => .ok ()
  | a :: rest =>
    match checkAxis cfg homed target a with
    | .error e => .error e
    | .ok _ => checkAxes cfg homed target rest

/-- Modelled from the spec: `checkTravel` (`limitsCheckTravel`,
section 4.4) — the axes are examined in ascending axis-index order and the
first failure encountered is returned. -/
def checkTravel (cfg : Config) (homed : Nat → Bool) (target : Nat → ℚ) :
    Except CheckErr Unit :=
  checkAxes cfg homed target (List.range cfg.numAxes)

/-- Modelled from the spec: SwitchState (section 3) — the debounced
`engaged` flag, the raw last-sampled value, and the timestamp of the last
raw transition. -/
structure SwitchState where
  engaged : Bool
  rawLast : Bool
  lastTransition : Nat
deriving DecidableEq, Repr

/-- Modelled from the spec: one run of the Debounce & Alarm Task
(`limitCheckTask`, section 4.3) for one pending switch, woken at time `t`
by the edge handler.  `raw` is the pin signal over discrete time,
`settle` the settle interval, `checking` whether hard-limit checking is
enabled for the axis, and `homingThis` whether the global SafetyState is
HOMING for this specific axis.  The task waits the settle interval and
samples `raw (t + settle)`; if that disagrees with the previous raw
sample it waits and samples once more at `t + 2*settle`.  The stable value
becomes the new `engaged`; the second component reports whether a
HardLimitTripped alarm is raised: only on a transition to engaged, with
checking enabled, outside homing of this axis. -/
def debounceStep (settle : Nat) (raw : Nat → Bool) (checking homingThis : Bool)
    (t : Nat) (st : SwitchState) : SwitchState × Bool :=
  let s1 := raw (t + settle)
  let v := if s1 = st.rawLast then s1 else raw (t + 2 * settle)
  let tr := if v = st.rawLast then st.lastTransition else t + settle
  let st2 : SwitchState := { engaged := v, rawLast := v, lastTransition := tr }
  (st2, checking && v && !st.engaged && !homingThis)

/-- Modelled from the spec: the reason codes of `HomingFail` (section 7). -/
inductive HomingErr where
  | noSwitchFound
  | switchStuck
  | timeout
deriving DecidableEq, Repr

/-- Modelled from the spec: a homing failure, carrying the failing axis and
the reason (`HomingFail(axis, reason)`). -/
structure HomingFail where
  axis : Nat
  err : HomingErr
deriving DecidableEq, Repr

/-- Modelled from the spec: the machine state the homing controller
touches — the authoritative MachinePosition, the per-axis homed flag, the
per-axis runtime soft-limit-checking-enabled flag, which axes are
currently moving, and the SafetyState. -/
structure MachineState where
  pos : Nat → ℚ
  homed : Nat → Bool
  softCheckEnabled : Nat → Bool
  moving : Nat → Bool
  safety : SafetyState

/-- Modelled from the spec: the physical environment a homing run meets
(the switches are external hardware).  `switchAt a` is the seek travel
distance at which axis `a`'s switch engages (`none` if it never does),
`stuckAfterPulloff a` whether the switch is still engaged after the
pull-off move, and `reengages a i` whether the `i`-th locate approach
re-engages the switch within its short bounded travel. -/
structure HomingEnv where
  switchAt : Nat → Option ℚ
  stuckAfterPulloff : Nat → Bool
  reengages : Nat → Nat → Bool

/-- Modelled from the spec: the bounded maximum seek travel of section 4.5
SEEKING, derived from the axis's configured travel length plus margin. -/
def seekBound (cfg : Config) (a : Nat) : ℚ :=
  cfg.maxTravel a + cfg.seekMargin a

/-- Modelled from the spec: whether axis `a`'s switch engages before its
bounded maximum seek travel is exhausted. -/
def seekOk (cfg : Config) (env : HomingEnv) (a : Nat) : Bool :=
  match env.switchAt a with
  | none => false
  | some d => decide (d ≤ seekBound cfg a)

/-- Modelled from the spec: whether axis `a` passes all of its configured
locate cycles (each approach must re-engage the switch). -/
def locateOk (cfg : Config) (env : HomingEnv) (a : Nat) : Bool :=
  (List.range (cfg.nLocateCycles a)).all (fun i => env.reengages a i)

/-- Halts motion of every axis in `group` (side of any homing failure:
motion stops for the entire group). -/
def haltGroup (group : List Nat) (st : MachineState) : MachineState :=
  { st with moving := fun a => if a ∈ group then false else st.moving a }

/-- Modelled from the spec: state change on a homing failure (section 4.5):
halt all axes in the group and set the SafetyState to ALARMED. -/
def failGroup (group : List Nat) (st : MachineState) : MachineState :=
  { haltGroup group st with safety := .alarmed }

/-- Modelled from the spec: the state at the start of a phase group's
SEEKING sub-state: soft-limit checking is disabled for the group's axes
and they all begin moving. -/
def beginSeek (group : List Nat) (st : MachineState) : MachineState :=
  { st with
    softCheckEnabled := fun a => if a ∈ group then false else st.softCheckEnabled a
    moving := fun a => if a ∈ group then true else st.moving a }

/-- Modelled from the spec: the COMPLETE sub-state of section 4.5: for each
axis of the group, MachinePosition is set to the configured home
coordinate, the axis is marked homed, soft-limit checking is re-enabled,
and motion has stopped. -/
def completeGroup (cfg : Config) (group : List Nat) (st : MachineState) : MachineState :=
  { st with
    pos := fun a => if a ∈ group then homeCoord cfg a else st.pos a
    homed := fun a => if a ∈ group then true else st.homed a
    softCheckEnabled := fun a => if a ∈ group then true else st.softCheckEnabled a
    moving := fun a => if a ∈ group then false else st.moving a }

/-- Modelled from the spec: one phase group of the homing cycle
(section 4.5), run through SEEKING, PULLING_OFF, the LOCATING cycles and
COMPLETE.  Any failure halts the whole group and alarms; the failing axis
reported is the first one (ascending order) whose sub-state fails. -/
def runPhaseGroup (cfg : Config) (env : HomingEnv) (group : List Nat)
    (st : MachineState) : MachineState × Option HomingFail :=
  let st1 := beginSeek group st
  match group.find? (fun a => !seekOk cfg env a) with
  | some a => (failGroup group st1, some ⟨a, .noSwitchFound⟩)
  | none =>
    match group.find? (fun a => env.stuckAfterPulloff a) with
    | some a => (failGroup group st1, some ⟨a, .switchStuck⟩)
    | none =>
      match group.find? (fun a => !locateOk cfg env a) with
      | some a => (failGroup group st1, some ⟨a, .timeout⟩)
      | none => (completeGroup cfg group st1, none)

/-- Modelled from the spec: the phase groups of the HomingPlan executed
strictly in order, aborting the remaining groups on the first failure. -/
def runPlan (cfg : Config) (env : HomingEnv) :
    List (List Nat) → MachineState → MachineState × Option HomingFail
  | [], st => (st, none)
  | g :: gs, st =>
    match runPhaseGroup cfg env g st with
    | (st2, none) => runPlan cfg env gs st2
    | (st2, some f) => (st2, some f)

/-- Modelled from the spec: `startHoming` (`limits_go_home`): the
SafetyState moves to HOMING on start; on success of every phase group it
returns to NORMAL, and on failure the failing group's `runPhaseGroup`
already left the machine ALARMED with all group axes halted. -/
def startHoming (cfg : Config) (env : HomingEnv) (plan : List (List Nat))
    (st : MachineState) : MachineState × Option HomingFail :=
  let st1 := { st with safety := safetyStep st.safety .homingStart }
  match runPlan cfg env plan st1 with
  | (st2, none) => ({ st2 with safety := safetyStep st2.safety .homingSuccess }, none)
  | (st2, some f) => (st2, some f)

end Limits

namespace LedcPin

theorem pwmLoopAux_eq :
    ∀ fuel bits maxCount, bits + fuel = 21 → 2 ≤ bits →
      (bits = 2 ∨ 2 ^ (bits - 1) ≤ maxCount) →
      pwmLoopAux maxCount fuel bits = min 20 (max (bits - 1) (Nat.log2 maxCount)) := by
  intro fuel
  induction fuel with
  | zero =>
    intro bits maxCount hsum hb hin
    have hb21 : bits = 21 := by omega
    subst hb21
    have h20 : 2 ^ 20 ≤ maxCount := by
      rcases hin with h | h
      · omega
      · simpa using h
    have hne : maxCount ≠ 0 := by
      have : (0:Nat) < 2 ^ 20 := Nat.pos_pow_of_pos 20 (by omega)
      omega
    have hlog : 20 ≤ Nat.log2 maxCount := (Nat.le_log2 hne).mpr h20
    simp only [pwmLoopAux]
    omega
  | succ fuel ih =>
    intro bits maxCount hsum hb hin
    by_cases h : maxCount < 2 ^ bits
    · have hrw : pwmLoopAux maxCount (fuel + 1) bits = bits - 1 := by
        simp [pwmLoopAux, h]
      rw [hrw]
      have hlog : Nat.log2 maxCount ≤ bits - 1 := by
        rcases Nat.eq_zero_or_pos maxCount with h0 | h0
        · subst h0
          rw [Nat.log2_eq_log_two, Nat.log_zero_right]
          omega
        · have h2 := (Nat.log2_lt (by omega)).mpr h
          omega
      omega
    · push_neg at h
      have hrw : pwmLoopAux maxCount (fuel + 1) bits = pwmLoopAux maxCount fuel (bits + 1) := by
        simp [pwmLoopAux, Nat.not_lt.mpr h]
      rw [hrw]
      have hne : maxCount ≠ 0 := by
        have : (0:Nat) < 2 ^ bits := Nat.pos_pow_of_pos bits (by omega)
        omega
      have hlog : bits ≤ Nat.log2 maxCount := (Nat.le_log2 hne).mpr h
      have hrec := ih (bits + 1) maxCount (by omega) (by omega)
        (Or.inr (by simpa using h))
      rw [hrec]
      omega

end LedcPin

/-- C8: `ledc_calc_pwm_precision(freq)` equals
`min(20, max(1, floor(log2(80000000 / max(freq, 1)))))` for every input
(with `Nat.log2` as the floor of the base-2 logarithm, `Nat.log2 0 = 0`);
in particular the result always lies in `[1, 20]`, and the value at
frequency 0 is 20. -/
theorem claim_C8_ledc_calc_pwm_precision :
    (∀ freq, LedcPin.ledc_calc_pwm_precision freq
        = min 20 (max 1 (Nat.log2 (80000000 / max freq 1))))
    ∧ (∀ freq, 1 ≤ LedcPin.ledc_calc_pwm_precision freq
        ∧ LedcPin.ledc_calc_pwm_precision freq ≤ 20)
    ∧ LedcPin.ledc_calc_pwm_precision 0 = 20 := by
  have key : ∀ freq, LedcPin.ledc_calc_pwm_precision freq
      = min 20 (max 1 (Nat.log2 (80000000 / max freq 1))) := by
    intro freq
    have h := LedcPin.pwmLoopAux_eq 19 2
      (80000000 / (if freq = 0 then 1 else freq)) (by omega) (by omega) (Or.inl rfl)
    simp only [LedcPin.ledc_calc_pwm_precision]
    rw [h]
    cases freq with
    | zero => norm_num
    | succ n =>
      have h1 : (n + 1 ≠ 0) := by omega
      have h2 : max (n + 1) 1 = n + 1 := by omega
      simp [h1, h2]
  refine ⟨key, ?_, ?_⟩
  · intro freq
    have h := key freq
    omega
  · have h := key 0
    have hlog : 20 ≤ Nat.log2 (80000000 / max 0 1) := by
      have : max 0 1 = 1 := by omega
      rw [this]
      exact (Nat.le_log2 (by norm_num)).mpr (by norm_num)
    omega

namespace LedcPin

theorem allocRun_invariant :
    ∀ n c chs cf, c % 2 = 0 → c ≤ 8 → allocRun n c = some (chs, cf) →
      cf % 2 = 0 ∧ cf ≤ 8 ∧ ∀ ch ∈ chs, ch % 2 = 0 ∧ ch < 8 := by
  intro n
  induction n with
  | zero =>
    intro c chs cf hc hle h
    simp only [allocRun, Option.some.injEq, Prod.mk.injEq] at h
    obtain ⟨h1, h2⟩ := h
    subst h1; subst h2
    exact ⟨hc, hle, by simp⟩
  | succ n ih =>
    intro c chs cf hc hle h
    by_cases hlt : c < 8
    · cases hall : allocRun n (c + 2) with
      | none => simp [allocRun, ledcAllocateChannel, hlt, hall] at h
      | some p =>
        obtain ⟨chs2, cf2⟩ := p
        simp only [allocRun, ledcAllocateChannel, if_pos hlt, hall,
          Option.some.injEq, Prod.mk.injEq] at h
        obtain ⟨h1, h2⟩ := h
        subst h2
        obtain ⟨i1, i2, i3⟩ := ih (c + 2) chs2 cf2 (by omega) (by omega) hall
        refine ⟨i1, i2, ?_⟩
        intro ch hch
        rw [← h1] at hch
        rcases List.mem_cons.mp hch with hh | ht
        · subst hh; exact ⟨hc, hlt⟩
        · exact i3 ch ht
    · simp [allocRun, ledcAllocateChannel, hlt] at h

end LedcPin

/-- C9: starting from the static counter at 0, the first four calls of
`ledcAllocateChannel` return channels 0, 2, 4, 6 (leaving the counter at
8), the fifth call hits the assertion, and every run from counter 0 keeps
the counter even and at most 8 and hands out only even channels below 8. -/
theorem claim_C9_ledcAllocateChannel :
    LedcPin.allocRun 4 0 = some ([0, 2, 4, 6], 8)
    ∧ LedcPin.allocRun 5 0 = none
    ∧ ∀ n chs cf, LedcPin.allocRun n 0 = some (chs, cf) →
        cf % 2 = 0 ∧ cf ≤ 8 ∧ ∀ ch ∈ chs, ch % 2 = 0 ∧ ch < 8 :=
  ⟨rfl, rfl, fun n chs cf h => LedcPin.allocRun_invariant n 0 chs cf rfl (by omega) h⟩

/-- Witness for C9: the invariant instantiated on the concrete run of four
successful allocations. -/
theorem claim_C9_ledcAllocateChannel_witness :
    8 % 2 = 0 ∧ 8 ≤ 8 ∧ ∀ ch ∈ [0, 2, 4, 6], ch % 2 = 0 ∧ ch < 8 :=
  claim_C9_ledcAllocateChannel.2.2 4 [0, 2, 4, 6] 8 rfl

/-- C10: `ledcSetDuty chan duty` writes `duty << 4` to the duty register of
channel (`chan >> 3`, `chan & 7`) and sets its `sig_out_en` and
`duty_start` bits exactly when `duty != 0`, leaving every other channel's
registers unchanged. -/
theorem claim_C10_ledcSetDuty :
    ∀ (st : LedcPin.LedcRegs) (chan duty : Nat),
      LedcPin.ledcSetDuty st chan duty (chan >>> 3, chan &&& 7)
        = { duty := (duty <<< 4) % 2 ^ 32, sig_out_en := duty != 0, duty_start := duty != 0 }
      ∧ ∀ gc, gc ≠ (chan >>> 3, chan &&& 7) → LedcPin.ledcSetDuty st chan duty gc = st gc := by
  intro st chan duty
  constructor
  · simp [LedcPin.ledcSetDuty]
  · intro gc h
    simp [LedcPin.ledcSetDuty, h]

/-- Witness for C10: writing duty 3 on channel 9 leaves channel (0, 0)
untouched. -/
theorem claim_C10_ledcSetDuty_witness :
    ((0, 0) : Nat × Nat) ≠ (9 >>> 3, 9 &&& 7)
    ∧ LedcPin.ledcSetDuty (fun _ => ⟨0, false, false⟩) 9 3 (0, 0) = ⟨0, false, false⟩ :=
  ⟨by decide, (claim_C10_ledcSetDuty (fun _ => ⟨0, false, false⟩) 9 3).2 (0, 0) (by decide)⟩

/-- C4: the SafetyState step function only moves along the transition graph
NORMAL→HOMING, HOMING→NORMAL, NORMAL→ALARMED, HOMING→ALARMED (every other
event leaves the state fixed), and ALARMED is terminal: no event of this
core ever changes it. -/
theorem claim_C4_safetyStep :
    (∀ s e, Limits.safetyStep s e = s
        ∨ Limits.allowedTransition s (Limits.safetyStep s e) = true)
    ∧ (∀ e, Limits.safetyStep .alarmed e = .alarmed) := by
  constructor
  · intro s e
    cases s <;> cases e <;> simp [Limits.safetyStep, Limits.allowedTransition]
  · intro e
    cases e <;> rfl

/-- C3: a raw pin pulse that has reverted by the time the settle-interval
sample is taken (the sample at `t + settle` again equals the stored raw
value, with the debounced flag in agreement) never changes the debounced
`engaged` flag and never raises a HardLimitTripped alarm; and whenever the
debounced flag does change, its new value is a raw sample taken at least
one settle interval after the wake (at `t + settle` when that sample agreed
with the stored raw value, otherwise the re-sample at `t + 2*settle`). -/
theorem claim_C3_debounce :
    ∀ (settle : Nat) (raw : Nat → Bool) (checking homingThis : Bool) (t : Nat)
      (st : Limits.SwitchState),
      (raw (t + settle) = st.rawLast → st.engaged = st.rawLast →
        (Limits.debounceStep settle raw checking homingThis t st).1.engaged = st.engaged
        ∧ (Limits.debounceStep settle raw checking homingThis t st).2 = false)
      ∧ ((Limits.debounceStep settle raw checking homingThis t st).1.engaged ≠ st.engaged →
        ((Limits.debounceStep settle raw checking homingThis t st).1.engaged = raw (t + settle)
          ∧ raw (t + settle) = st.rawLast)
        ∨ ((Limits.debounceStep settle raw checking homingThis t st).1.engaged
            = raw (t + 2 * settle)
          ∧ raw (t + settle) ≠ st.rawLast)) := by
  intro settle raw checking homingThis t st
  constructor
  · intro h1 h2
    simp only [Limits.debounceStep, h1, if_pos, ← h2]
    cases st.engaged <;> simp
  · by_cases hs : raw (t + settle) = st.rawLast
    · intro hne
      left
      refine ⟨?_, hs⟩
      simp [Limits.debounceStep, hs]
    · intro hne
      right
      refine ⟨?_, hs⟩
      simp [Limits.debounceStep, hs]

/-- Witness for C3: a pulse at time 1 (settle interval 2, wake at 0) has
reverted by the settle sample, so the debounced flag stays false and no
alarm is raised. -/
theorem claim_C3_debounce_witness :
    (Limits.debounceStep 2 (fun n => decide (n = 1)) true false 0
        ⟨false, false, 0⟩).1.engaged = false
    ∧ (Limits.debounceStep 2 (fun n => decide (n = 1)) true false 0
        ⟨false, false, 0⟩).2 = false :=
  (claim_C3_debounce 2 (fun n => decide (n = 1)) true false 0
    ⟨false, false, 0⟩).1 (by decide) rfl

namespace Limits

theorem checkAxes_ok (cfg : Config) (homed : Nat → Bool) (target : Nat → ℚ) :
    ∀ l : List Nat, (∀ a ∈ l, checkAxis cfg homed target a = .ok ()) →
      checkAxes cfg homed target l = .ok () := by
  intro l
  induction l with
  | nil => intro _; rfl
  | cons a rest ih =>
    intro h
    have ha := h a (List.mem_cons_self a rest)
    simp only [checkAxes, ha]
    exact ih (fun b hb => h b (List.mem_cons_of_mem a hb))

theorem checkAxes_error (cfg : Config) (homed : Nat → Bool) (target : Nat → ℚ) :
    ∀ (l1 : List Nat) (a : Nat) (l2 : List Nat) (e : CheckErr),
      (∀ b ∈ l1, checkAxis cfg homed target b = .ok ()) →
      checkAxis cfg homed target a = .error e →
      checkAxes cfg homed target (l1 ++ a :: l2) = .error e := by
  intro l1
  induction l1 with
  | nil =>
    intro a l2 e _ ha
    simp only [List.nil_append, checkAxes, ha]
  | cons b rest ih =>
    intro a l2 e h ha
    have hb := h b (List.mem_cons_self b rest)
    simp only [List.cons_append, checkAxes, hb]
    exact ih a l2 e (fun x hx => h x (List.mem_cons_of_mem b hx)) ha

theorem checkAxes_ne_ok (cfg : Config) (homed : Nat → Bool) (target : Nat → ℚ) :
    ∀ l : List Nat, ∀ a ∈ l, (∃ e, checkAxis cfg homed target a = .error e) →
      ∀ u, checkAxes cfg homed target l ≠ .ok u := by
  intro l
  induction l with
  | nil =>
    intro a ha
    simp at ha
  | cons b rest ih =>
    intro a ha he u
    obtain ⟨e, he⟩ := he
    cases hb : checkAxis cfg homed target b with
    | error eb => simp [checkAxes, hb]
    | ok vb =>
      simp only [checkAxes, hb]
      rcases List.mem_cons.mp ha with h1 | h2
      · subst h1
        rw [hb] at he
        cases he
      · exact ih a h2 ⟨e, he⟩ u

theorem range_split_at (n a : Nat) (h : a < n) :
    List.range n
      = List.range a ++ a :: List.map (fun x => a + 1 + x) (List.range (n - (a + 1))) := by
  have h1 : List.range n
      = List.range (a + 1) ++ List.map (fun x => a + 1 + x) (List.range (n - (a + 1))) := by
    rw [← List.range_add]
    congr 1
    omega
  rw [h1, List.range_succ, List.append_assoc, List.singleton_append]

theorem checkTravel_first_error (cfg : Config) (homed : Nat → Bool) (target : Nat → ℚ)
    (a : Nat) (e : CheckErr) (h : a < cfg.numAxes)
    (hok : ∀ b, b < a → checkAxis cfg homed target b = .ok ())
    (he : checkAxis cfg homed target a = .error e) :
    checkTravel cfg homed target = .error e := by
  rw [checkTravel, range_split_at cfg.numAxes a h]
  exact checkAxes_error cfg homed target (List.range a) a _ e
    (fun b hb => hok b (List.mem_range.mp hb)) he

end Limits

/-- C1: on a homed axis with soft limits enabled, the per-axis travel check
accepts exactly the targets inside `[minBound, maxBound]` (the bounds being
computed from travel length, homing direction and pull-off): if every
enabled axis is homed and in range, `checkTravel` succeeds, and if the
first failing axis is homed with its target strictly below `minBound` or
strictly above `maxBound`, `checkTravel` returns the `SoftLimitViolation`
carrying that axis and the violated bound. -/
theorem claim_C1_checkTravel :
    ∀ (cfg : Limits.Config) (homed : Nat → Bool) (target : Nat → ℚ),
      ((∀ a, a < cfg.numAxes → cfg.softLimits a = true →
          homed a = true ∧ Limits.limitsMinPosition cfg a ≤ target a
            ∧ target a ≤ Limits.limitsMaxPosition cfg a) →
        Limits.checkTravel cfg homed target = .ok ())
      ∧ (∀ a, a < cfg.numAxes → cfg.softLimits a = true → homed a = true →
          Limits.limitsMinPosition cfg a ≤ Limits.limitsMaxPosition cfg a →
          (∀ b, b < a → Limits.checkAxis cfg homed target b = .ok ()) →
          (target a < Limits.limitsMinPosition cfg a →
            Limits.checkTravel cfg homed target
              = .error (.softLimitViolation a (target a) (Limits.limitsMinPosition cfg a)))
          ∧ (Limits.limitsMaxPosition cfg a < target a →
            Limits.checkTravel cfg homed target
              = .error (.softLimitViolation a (target a) (Limits.limitsMaxPosition cfg a)))) := by
  intro cfg homed target
  constructor
  · intro h
    apply Limits.checkAxes_ok
    intro a ha
    have ha2 := List.mem_range.mp ha
    by_cases hs : cfg.softLimits a = true
    · obtain ⟨hh, h1, h2⟩ := h a ha2 hs
      simp [Limits.checkAxis, hs, hh, not_lt.mpr h1, not_lt.mpr h2]
    · simp [Limits.checkAxis, hs]
  · intro a ha hs hh hint hprev
    constructor
    · intro hlt
      apply Limits.checkTravel_first_error cfg homed target a _ ha hprev
      simp [Limits.checkAxis, hs, hh, hlt]
    · intro hgt
      apply Limits.checkTravel_first_error cfg homed target a _ ha hprev
      have hnl : ¬(target a < Limits.limitsMinPosition cfg a) :=
        not_lt.mpr (le_trans hint (le_of_lt hgt))
      simp [Limits.checkAxis, hs, hh, hnl, hgt]

/-- Witness for C1: scenario 7 of the spec — one axis with travel 100,
pull-off 2, homed toward min; the in-range target 50 passes the check. -/
theorem claim_C1_checkTravel_witness :
    Limits.checkTravel
      ⟨1, fun _ => 100, fun _ => 2, fun _ => true, fun _ => true, fun _ => 2, fun _ => 5⟩
      (fun _ => true) (fun _ => 50) = .ok () :=
  (claim_C1_checkTravel
    ⟨1, fun _ => 100, fun _ => 2, fun _ => true, fun _ => true, fun _ => 2, fun _ => 5⟩
    (fun _ => true) (fun _ => 50)).1 (by decide)

/-- C2: on an axis with soft limits enabled that has never been homed, the
per-axis check fails with `NotHomed(axis)` whatever the target value, and
`checkTravel` never succeeds on such a target vector. -/
theorem claim_C2_notHomed :
    ∀ (cfg : Limits.Config) (homed : Nat → Bool) (target : Nat → ℚ) (a : Nat),
      a < cfg.numAxes → cfg.softLimits a = true → homed a = false →
      Limits.checkAxis cfg homed target a = .error (.notHomed a)
      ∧ (∀ u, Limits.checkTravel cfg homed target ≠ .ok u)
      ∧ ((∀ b, b < a → Limits.checkAxis cfg homed target b = .ok ()) →
          Limits.checkTravel cfg homed target = .error (.notHomed a)) := by
  intro cfg homed target a ha hs hnh
  have hax : Limits.checkAxis cfg homed target a = .error (.notHomed a) := by
    simp [Limits.checkAxis, hs, hnh]
  refine ⟨hax, ?_, ?_⟩
  · intro u
    exact Limits.checkAxes_ne_ok cfg homed target (List.range cfg.numAxes) a
      (List.mem_range.mpr ha) ⟨_, hax⟩ u
  · intro hprev
    exact Limits.checkTravel_first_error cfg homed target a _ ha hprev hax

/-- Witness for C2: the scenario-7 axis before any homing — the check on
axis 0 fails `NotHomed(0)` and the whole travel check cannot succeed. -/
theorem claim_C2_notHomed_witness :
    Limits.checkAxis
      ⟨1, fun _ => 100, fun _ => 2, fun _ => true, fun _ => true, fun _ => 2, fun _ => 5⟩
      (fun _ => false) (fun _ => 50) 0 = .error (.notHomed 0)
    ∧ (∀ u, Limits.checkTravel
        ⟨1, fun _ => 100, fun _ => 2, fun _ => true, fun _ => true, fun _ => 2, fun _ => 5⟩
        (fun _ => false) (fun _ => 50) ≠ .ok u)
    ∧ Limits.checkTravel
        ⟨1, fun _ => 100, fun _ => 2, fun _ => true, fun _ => true, fun _ => 2, fun _ => 5⟩
        (fun _ => false) (fun _ => 50) = .error (.notHomed 0) :=
  have h := claim_C2_notHomed
    ⟨1, fun _ => 100, fun _ => 2, fun _ => true, fun _ => true, fun _ => 2, fun _ => 5⟩
    (fun _ => false) (fun _ => 50) 0 (by decide) rfl rfl
  ⟨h.1, h.2.1, h.2.2 (fun b hb => absurd hb (by omega))⟩

/-- C7: axes are examined in ascending index order and checking stops at
the first violating axis: if every axis below `a` passes its check and
axis `a` fails with error `e`, then `checkTravel` returns exactly `e`
(no later axis's violation is reported). -/
theorem claim_C7_first_violation :
    ∀ (cfg : Limits.Config) (homed : Nat → Bool) (target : Nat → ℚ) (a : Nat)
      (e : Limits.CheckErr),
      a < cfg.numAxes →
      (∀ b, b < a → Limits.checkAxis cfg homed target b = .ok ()) →
      Limits.checkAxis cfg homed target a = .error e →
      Limits.checkTravel cfg homed target = .error e :=
  fun cfg homed target a e ha hok he =>
    Limits.checkTravel_first_error cfg homed target a e ha hok he

/-- Witness for C7: two axes whose targets both violate the soft limits
(300 on each axis, travel 100); the reported violation is axis 0's. -/
theorem claim_C7_first_violation_witness :
    Limits.checkTravel
      ⟨2, fun _ => 100, fun _ => 2, fun _ => true, fun _ => true, fun _ => 2, fun _ => 5⟩
      (fun _ => true) (fun _ => 300)
      = .error (.softLimitViolation 0 300 100) :=
  claim_C7_first_violation
    ⟨2, fun _ => 100, fun _ => 2, fun _ => true, fun _ => true, fun _ => 2, fun _ => 5⟩
    (fun _ => true) (fun _ => 300) 0 (.softLimitViolation 0 300 100)
    (by decide) (fun b hb => absurd hb (by omega)) rfl

namespace Limits

theorem runPlan_append (cfg : Config) (env : HomingEnv) :
    ∀ (gs1 gs2 : List (List Nat)) (st : MachineState),
      runPlan cfg env (gs1 ++ gs2) st
        = match runPlan cfg env gs1 st with
          | (st2, none) => runPlan cfg env gs2 st2
          | (st2, some f) => (st2, some f) := by
  intro gs1
  induction gs1 with
  | nil => intro gs2 st; rfl
  | cons g gs ih =>
    intro gs2 st
    simp only [List.cons_append, runPlan]
    rcases hg : runPhaseGroup cfg env g st with ⟨st2, f⟩
    cases f with
    | none => exact ih gs2 st2
    | some fl => rfl

theorem runPhaseGroup_seek_fail (cfg : Config) (env : HomingEnv) (g : List Nat)
    (st : MachineState) (b : Nat)
    (hb : g.find? (fun x => !seekOk cfg env x) = some b) :
    runPhaseGroup cfg env g st = (failGroup g (beginSeek g st), some ⟨b, .noSwitchFound⟩) := by
  simp only [runPhaseGroup, hb]

end Limits

/-- C5: whenever the homing plan reaches a phase group containing an axis
whose switch does not engage within its bounded maximum seek travel (travel
length plus margin), `startHoming` fails with `HomingFail(b, NoSwitchFound)`
for the first such axis `b` of the group, every axis of the group is
halted, and the SafetyState becomes ALARMED. -/
theorem claim_C5_seek_noSwitchFound :
    ∀ (cfg : Limits.Config) (env : Limits.HomingEnv) (gs1 : List (List Nat))
      (g : List Nat) (gs2 : List (List Nat)) (st stMid : Limits.MachineState) (a : Nat),
      Limits.runPlan cfg env gs1
        { st with safety := Limits.safetyStep st.safety .homingStart } = (stMid, none) →
      a ∈ g → Limits.seekOk cfg env a = false →
      ∃ b, b ∈ g ∧ Limits.seekOk cfg env b = false
        ∧ g.find? (fun x => !Limits.seekOk cfg env x) = some b
        ∧ (Limits.startHoming cfg env (gs1 ++ g :: gs2) st).2
            = some ⟨b, .noSwitchFound⟩
        ∧ (Limits.startHoming cfg env (gs1 ++ g :: gs2) st).1.safety = .alarmed
        ∧ ∀ c ∈ g, (Limits.startHoming cfg env (gs1 ++ g :: gs2) st).1.moving c = false := by
  intro cfg env gs1 g gs2 st stMid a hpre ha hfail
  have hsome : (g.find? (fun x => !Limits.seekOk cfg env x)).isSome := by
    rw [List.find?_isSome]
    exact ⟨a, ha, by simp [hfail]⟩
  obtain ⟨b, hb⟩ := Option.isSome_iff_exists.mp hsome
  have hbmem := List.mem_of_find?_eq_some hb
  have hbfail : Limits.seekOk cfg env b = false := by
    have := List.find?_some hb
    simpa using this
  have hres : Limits.startHoming cfg env (gs1 ++ g :: gs2) st
      = (Limits.failGroup g (Limits.beginSeek g stMid), some ⟨b, .noSwitchFound⟩) := by
    simp only [Limits.startHoming, Limits.runPlan_append, hpre, Limits.runPlan,
      Limits.runPhaseGroup_seek_fail cfg env g stMid b hb]
  refine ⟨b, hbmem, hbfail, hb, ?_, ?_, ?_⟩
  · rw [hres]
  · rw [hres]
    rfl
  · intro c hc
    rw [hres]
    simp [Limits.failGroup, Limits.haltGroup, hc]

/-- Witness for C5: scenario 8 of the spec — a single-group plan homing an
axis whose switch never engages; `startHoming` reports `NoSwitchFound`,
halts the group and alarms. -/
theorem claim_C5_seek_noSwitchFound_witness :
    ∃ b, b ∈ [0] ∧ Limits.seekOk
        ⟨1, fun _ => 100, fun _ => 2, fun _ => true, fun _ => true, fun _ => 2, fun _ => 5⟩
        ⟨fun _ => none, fun _ => false, fun _ _ => true⟩ b = false
      ∧ [0].find? (fun x => !Limits.seekOk
          ⟨1, fun _ => 100, fun _ => 2, fun _ => true, fun _ => true, fun _ => 2, fun _ => 5⟩
          ⟨fun _ => none, fun _ => false, fun _ _ => true⟩ x) = some b
      ∧ (Limits.startHoming
          ⟨1, fun _ => 100, fun _ => 2, fun _ => true, fun _ => true, fun _ => 2, fun _ => 5⟩
          ⟨fun _ => none, fun _ => false, fun _ _ => true⟩ ([] ++ [0] :: [])
          ⟨fun _ => 0, fun _ => false, fun _ => true, fun _ => false, .normal⟩).2
          = some ⟨b, .noSwitchFound⟩
      ∧ (Limits.startHoming
          ⟨1, fun _ => 100, fun _ => 2, fun _ => true, fun _ => true, fun _ => 2, fun _ => 5⟩
          ⟨fun _ => none, fun _ => false, fun _ _ => true⟩ ([] ++ [0] :: [])
          ⟨fun _ => 0, fun _ => false, fun _ => true, fun _ => false, .normal⟩).1.safety
          = .alarmed
      ∧ ∀ c ∈ [0], (Limits.startHoming
          ⟨1, fun _ => 100, fun _ => 2, fun _ => true, fun _ => true, fun _ => 2, fun _ => 5⟩
          ⟨fun _ => none, fun _ => false, fun _ _ => true⟩ ([] ++ [0] :: [])
          ⟨fun _ => 0, fun _ => false, fun _ => true, fun _ => false, .normal⟩).1.moving c
          = false :=
  claim_C5_seek_noSwitchFound
    ⟨1, fun _ => 100, fun _ => 2, fun _ => true, fun _ => true, fun _ => 2, fun _ => 5⟩
    ⟨fun _ => none, fun _ => false, fun _ _ => true⟩ [] [0] []
    ⟨fun _ => 0, fun _ => false, fun _ => true, fun _ => false, .normal⟩
    ⟨fun _ => 0, fun _ => false, fun _ => true, fun _ => false, .homing⟩ 0
    rfl (by decide) rfl

/-- C6: when a phase group completes without failure, the COMPLETE step has
set MachinePosition of every axis in the group to its configured home
coordinate (derived from homing direction and travel length), marked the
axis homed, and re-enabled soft-limit checking for it. -/
theorem claim_C6_complete :
    ∀ (cfg : Limits.Config) (env : Limits.HomingEnv) (g : List Nat)
      (st : Limits.MachineState),
      (Limits.runPhaseGroup cfg env g st).2 = none →
      ∀ a ∈ g,
        (Limits.runPhaseGroup cfg env g st).1.pos a = Limits.homeCoord cfg a
        ∧ (Limits.runPhaseGroup cfg env g st).1.homed a = true
        ∧ (Limits.runPhaseGroup cfg env g st).1.softCheckEnabled a = true := by
  intro cfg env g st hnone a ha
  rcases h1 : g.find? (fun x => !Limits.seekOk cfg env x) with _ | b
  · rcases h2 : g.find? (fun x => env.stuckAfterPulloff x) with _ | b
    · rcases h3 : g.find? (fun x => !Limits.locateOk cfg env x) with _ | b
      · have hres : Limits.runPhaseGroup cfg env g st
            = (Limits.completeGroup cfg g (Limits.beginSeek g st), none) := by
          simp only [Limits.runPhaseGroup, h1, h2, h3]
        rw [hres]
        simp [Limits.completeGroup, ha]
      · simp only [Limits.runPhaseGroup, h1, h2, h3] at hnone
        cases hnone
    · simp only [Limits.runPhaseGroup, h1, h2] at hnone
      cases hnone
  · simp only [Limits.runPhaseGroup, h1] at hnone
    cases hnone

/-- Witness for C6: scenario 7 of the spec — axis 0 with travel 100,
pull-off 2, homing toward min, switch engaging at seek distance 50; after
the group completes, the position is the home coordinate 0, the axis is
homed, and soft-limit checking is re-enabled. -/
theorem claim_C6_complete_witness :
    (Limits.runPhaseGroup
        ⟨1, fun _ => 100, fun _ => 2, fun _ => true, fun _ => true, fun _ => 2, fun _ => 5⟩
        ⟨fun _ => some 50, fun _ => false, fun _ _ => true⟩ [0]
        ⟨fun _ => 7, fun _ => false, fun _ => false, fun _ => false, .homing⟩).1.pos 0
      = Limits.homeCoord
        ⟨1, fun _ => 100, fun _ => 2, fun _ => true, fun _ => true, fun _ => 2, fun _ => 5⟩ 0
    ∧ (Limits.runPhaseGroup
        ⟨1, fun _ => 100, fun _ => 2, fun _ => true, fun _ => true, fun _ => 2, fun _ => 5⟩
        ⟨fun _ => some 50, fun _ => false, fun _ _ => true⟩ [0]
        ⟨fun _ => 7, fun _ => false, fun _ => false, fun _ => false, .homing⟩).1.homed 0
      = true
    ∧ (Limits.runPhaseGroup
        ⟨1, fun _ => 100, fun _ => 2, fun _ => true, fun _ => true, fun _ => 2, fun _ => 5⟩
        ⟨fun _ => some 50, fun _ => false, fun _ _ => true⟩ [0]
        ⟨fun _ => 7, fun _ => false, fun _ => false, fun _ => false, .homing⟩).1.softCheckEnabled 0
      = true :=
  claim_C6_complete
    ⟨1, fun _ => 100, fun _ => 2, fun _ => true, fun _ => true, fun _ => 2, fun _ => 5⟩
    ⟨fun _ => some 50, fun _ => false, fun _ _ => true⟩ [0]
    ⟨fun _ => 7, fun _ => false, fun _ => false, fun _ => false, .homing⟩
    (by
      have hseek : Limits.seekOk
          ⟨1, fun _ => 100, fun _ => 2, fun _ => true, fun _ => true, fun _ => 2, fun _ => 5⟩
          ⟨fun _ => some 50, fun _ => false, fun _ _ => true⟩ 0 = true := by
        simp only [Limits.seekOk, Limits.seekBound, decide_eq_true_eq]
        norm_num
      simp only [Limits.runPhaseGroup, List.find?, hseek, Limits.locateOk]
      decide)
    0 (by decide)
